import Mathlib

/-!
# Verification of the 4dvideo depth–color fusion pipeline

Shallow embedding of `src/libs/4d/src/data_visualizer.cpp` (the
`DataVisualizer` consumer and the `RealsenseGrabber` producer) and proofs of
the spec's testable properties.

Conventions of the embedding:
* OpenCV `cv::Mat` grids become `Image α`: explicit `rows`/`cols` plus a total
  indexing function (out-of-bounds indices are irrelevant to every theorem,
  which quantifies only over in-bounds pixels where needed).
* `cv::Vec3b` pixels become `Pix`, three natural-number channels in OpenCV's
  BGR memory order, so `c[1]` in the C++ is the `g` field.
* `uint16_t` depth values become `ℕ`; all arithmetic the C++ performs in
  `float` on values in this program's range is embedded as exact rational
  arithmetic (the justifications that the `float` computation agrees with the
  rational one on the relevant domain accompany the individual definitions).
-/

/-- One 3-channel 8-bit pixel, in OpenCV BGR channel order: `b` is channel 0,
`g` channel 1 (green), `r` channel 2, mirroring `cv::Vec3b`. -/
structure Pix where
  b : ℕ
  g : ℕ
  r : ℕ
  deriving DecidableEq, Repr

/-- A 2D pixel grid, mirroring `cv::Mat`: a size plus row-major per-pixel
data, indexed `data i j` with `i` the row and `j` the column. -/
structure Image (α : Type) where
  rows : ℕ
  cols : ℕ
  data : ℕ → ℕ → α

/-- Nearest-neighbor resampling of `img` to `w × h`, embedding
`cv::resize(img, dst, cv::Size(w, h), 0, 0, cv::INTER_NEAREST)`:
destination pixel `(i, j)` reads source pixel
`(min (i*rows/h) (rows-1), min (j*cols/w) (cols-1))` (OpenCV's
`x_ofs[x] = min(cvFloor(x*ifx), ssize.width-1)` nearest-neighbor map,
with the floating-point scale evaluated exactly as a rational). -/
def cvResizeNearest (img : Image α) (w h : ℕ) : Image α :=
  ⟨h, w, fun i j =>
    img.data (min (i * img.rows / h) (img.rows - 1))
             (min (j * img.cols / w) (img.cols - 1))⟩

/-- The `resizeImg` helper (data_visualizer.cpp:23-29): resample to `w × h`
with nearest-neighbor interpolation unless the image already has exactly that
size, in which case pass the input through unchanged (`dst = img`). -/
def resizeImg (img : Image α) (w h : ℕ) : Image α :=
  if img.cols ≠ w ∨ img.rows ≠ h then cvResizeNearest img w h
  else img

-- Sanity checks of the embedding on concrete inputs.
example :
    (resizeImg (⟨1, 2, fun _ j => j⟩ : Image ℕ) 4 1).data 0 3 = 1 := by decide
example :
    (resizeImg (⟨1, 2, fun _ j => j⟩ : Image ℕ) 2 1).data 0 5 = 5 := by decide

/-! ## Fusion compositing (DataVisualizer::process, lines 110-128)

The constants of the loop are `maxColor = 40`, `maxDistMm = 6000`,
`minDistMm = 300` (C++ `float`s whose values are exact small integers).
-/

/-- The green boost `int(maxColor - d * maxColor / maxDistMm)`
(data_visualizer.cpp:125), embedded as the floor of the exact rational
`40 - d*40/6000`.

Fidelity of the embedding for the domain `300 < d < 6000` on which the C++
evaluates this expression: `d * 40.0f` is exact (an integer below `2^24`);
the two remaining `float` roundings introduce an absolute error below
`5·10^-6`, while the exact value `(6000 - d)/150` is either an integer — in
which case `d*40/6000 = d/150` is an exactly representable small integer and
the `float` computation is exact — or at distance `≥ 1/150` from every
integer, so `float` truncation agrees with the exact floor; and since the
value is positive on this domain, C++ `int(...)` truncation toward zero is
the floor. -/
def depthColor (d : ℕ) : ℤ :=
  ⌊(40 : ℚ) - (d : ℚ) * 40 / 6000⌋

/-- The per-pixel fusion rule of the compositing loop
(data_visualizer.cpp:117-127): copy the aligned color pixel `c`; if the
aligned depth `d` is outside the open interval `(300, 6000)` (comparisons of
the `uint16_t` against the exact `float` constants `300.0f`/`6000.0f`) leave
it unchanged, otherwise set the green channel to
`uchar(std::min(c[1] + depthColor, 255))` (the `min` operates on C `int`s;
the result lies in `[0, 255]` so the `uchar` cast is value-preserving). -/
def fusePixel (c : Pix) (d : ℕ) : Pix :=
  if d ≤ 300 ∨ 6000 ≤ d then c
  else { c with g := (min ((c.g : ℤ) + depthColor d) 255).toNat }

/-- The fused composite `colorWithDepth` (data_visualizer.cpp:93,112-128):
a `depth.rows × depth.cols` 3-channel image whose pixel `(i, j)` is
`fusePixel` of the aligned color pixel and aligned depth value there.  (The
C++ allocates `colorWithDepth` as `h × w` zeros and fills exactly the pixels
`i < depth.rows, j < depth.cols`; after the alignment resize `depth` is
`h × w`, so the loop covers the whole allocation and the embedding records
the filled grid directly.) -/
def fuseImage (color : Image Pix) (depth : Image ℕ) : Image Pix :=
  ⟨depth.rows, depth.cols, fun i j => fusePixel (color.data i j) (depth.data i j)⟩

-- The spec's worked example: gray (128,128,128) at depth 1000 mm gains 33
-- green; at the excluded boundary 6000 mm the pixel is unchanged.
example : fusePixel ⟨128, 128, 128⟩ 1000 = ⟨128, 161, 128⟩ := by
  (norm_num [fusePixel, depthColor, Pix.mk.injEq]; decide)
example : fusePixel ⟨128, 128, 128⟩ 6000 = ⟨128, 128, 128⟩ := by decide
-- The truncation-vs-rounding pivot: at d = 975 the exact boost is 33.5.
example : fusePixel ⟨128, 128, 128⟩ 975 = ⟨128, 161, 128⟩ := by
  (norm_num [fusePixel, depthColor, Pix.mk.injEq]; decide)

/-! ## Depth synthesis from the point cloud (DataVisualizer::process, 96-108)

When `frame->depth` is empty the visualizer builds `projection`, a
`depthCamera.h × depthCamera.w` zero grid, and for each cloud point `p` with
`project3dPointTo2d(p, depthCamera, iImg, jImg, d)` returning true writes `d`
at `(iImg, jImg)`.  `project3dPointTo2d` lives in `util/geometry.hpp`, an
external geometry collaborator; the embedding abstracts it as an arbitrary
function `proj : P → Option (ℕ × ℕ × ℕ)` returning `(iImg, jImg, d)` on
success and `none` when the point does not project. -/

/-- One write of the synthesis loop body
(`projection.at<uint16_t>(iImg, jImg) = d;`, data_visualizer.cpp:105). -/
def gridWrite (g : ℕ → ℕ → ℕ) (i j d : ℕ) : ℕ → ℕ → ℕ :=
  fun i' j' => if i' = i ∧ j' = j then d else g i' j'

/-- One iteration of the synthesis loop (data_visualizer.cpp:103-105): a
point that projects writes its quantized distance, a point that does not
leaves the grid alone. -/
def synthStep (proj : P → Option (ℕ × ℕ × ℕ)) (g : ℕ → ℕ → ℕ) (p : P) :
    ℕ → ℕ → ℕ :=
  match proj p with
  | none => g
  | some (i, j, d) => gridWrite g i j d

/-- The synthesized depth grid (data_visualizer.cpp:100-105): start from
`cv::Mat::zeros(depthCamera.h, depthCamera.w, CV_16UC1)` and run the
synthesis loop over the cloud points in order. -/
def synthesizeDepth (proj : P → Option (ℕ × ℕ × ℕ)) (rows cols : ℕ)
    (cloud : List P) : Image ℕ :=
  ⟨rows, cols, cloud.foldl (synthStep proj) (fun _ _ => 0)⟩

/-- The quantized distance the last cloud point projecting to pixel `(i, j)`
reports, or 0 if no point projects there: the reference value against which
the synthesized grid is checked. -/
def lastProjected (proj : P → Option (ℕ × ℕ × ℕ)) (cloud : List P)
    (i j : ℕ) : ℕ :=
  (cloud.reverse.findSome? fun p =>
    match proj p with
    | none => none
    | some (i', j', d) => if i = i' ∧ j = j' then some d else none).getD 0

/-! ## The recording branch (DataVisualizer::process, 131-152) -/

/-- Rounding to the nearest integer with ties to the even neighbor: the
rounding rule of OpenCV's `cvRound` (and hence of `saturate_cast<uchar>` on
a non-negative in-range value) under the default IEEE rounding mode. -/
def cvRoundQ (q : ℚ) : ℤ :=
  if q - ⌊q⌋ < 1 / 2 then ⌊q⌋
  else if 1 / 2 < q - ⌊q⌋ then ⌊q⌋ + 1
  else if ⌊q⌋ % 2 = 0 then ⌊q⌋ else ⌊q⌋ + 1

/-- The false-color rule of the recording branch
(data_visualizer.cpp:138-148) for one depth value: `d = 0` stays at the
`cv::Mat::zeros` black; otherwise `d` is clamped into `[dMin, dMax] =
[800, 2500]` and the pixel becomes
`(float(dMax-d)/dRange)*close + (float(d-dMin)/dRange)*far` with
`close = (0,0,255)` and `far = (255,0,0)` in BGR.  Per channel the
scalar·`Vec3b` product applies `saturate_cast<uchar>` — `cvRound`, rounding
to nearest with ties to even, then a clamp to `[0,255]` — so each nonzero
channel is `cvRound(255 * fl(n/1700))` computed in single precision, with
`n` the offset of the clamped depth from the matching interval end; the
embedding takes `cvRoundQ` of the exact rational `n*255/1700 = 3n/20`.

Fidelity of that embedding over the whole domain `n ∈ [0, 1700]`: at a tie
offset (`n ≡ 10 (mod 20)`, exact value `k + 1/2` with `k ≤ 254`) the
half-integer `k + 1/2` is `float`-representable and the product
`255 · fl(n/1700)` differs from it by at most `255 · 2^-25`, under half its
ULP, so the computed `float` is exactly `k + 1/2` and `cvRound` picks the
even neighbor just as `cvRoundQ` does; at every other offset the exact
value is at least `1/20` from the nearest half-integer while the two
`float` roundings err by under `10^-4`, so both round to the same integer.
All values lie in `[0, 255]`, so the clamp never acts. -/
def falseColor (d0 : ℕ) : Pix :=
  if d0 = 0 then ⟨0, 0, 0⟩
  else
    let d := min (max d0 800) 2500
    ⟨(cvRoundQ (((d : ℚ) - 800) * 255 / 1700)).toNat, 0,
     (cvRoundQ (((2500 : ℚ) - (d : ℚ)) * 255 / 1700)).toNat⟩

-- Tie behavior at depth 830: the exact channel shares 4.5 (blue) and 250.5
-- (red) round to the even neighbors 4 and 250, not up to 5 and 251.
example : falseColor 830 = ⟨4, 0, 250⟩ := by
  (norm_num [falseColor, cvRoundQ, Pix.mk.injEq]; decide)
-- An untied depth for comparison: 1000 mm gives exact shares 30 and 225.
example : falseColor 1000 = ⟨30, 0, 225⟩ := by
  (norm_num [falseColor, cvRoundQ, Pix.mk.injEq]; decide)

/-- The recorded image `depthPretty` before its final resize
(data_visualizer.cpp:137-149): the false-color rule applied to each pixel of
the aligned depth grid, at the aligned depth grid's own resolution. -/
def depthPretty (depth : Image ℕ) : Image Pix :=
  ⟨depth.rows, depth.cols, fun i j => falseColor (depth.data i j)⟩

/-- The final resize of the recording branch (data_visualizer.cpp:150):
`cv::resize(depthPretty, depthPrettyResized, cv::Size(), fx, fy,
cv::INTER_NEAREST)` with an empty destination size, which OpenCV computes as
`Size(round(fx*cols), round(fy*rows))`.  The call site passes `fx = fy = 1`.
Scales are rationals and `round` is exact. -/
def cvResizeScale (img : Image α) (fx fy : ℚ) : Image α :=
  cvResizeNearest img (round (fx * img.cols)).toNat (round (fy * img.rows)).toNat

/-- The image actually written to disk: `depthPrettyResized`
(data_visualizer.cpp:150-151), the false-color image passed through the
scale-factor resize with the call site's literal factors `1, 1`. -/
def depthPrettyResized (depth : Image ℕ) : Image Pix :=
  cvResizeScale (depthPretty depth) 1 1

/-! ## Frame counter and recorded-file naming
(DataVisualizer::init line 77, DataVisualizer::process lines 131-135, 154) -/

/-- The `numFrames` index rendered by
`s << std::setw(8) << std::setfill('0') << numFrames`
(data_visualizer.cpp:135): the decimal digits of `n`, most significant
first, left-padded with `'0'` to width 8.  `padDigits l n` is the list of
the `l` lowest decimal digits of `n`, most significant first; for
`n < 10^l` this is exactly the `setw(l)`/`setfill('0')` rendering (for
larger `n`, `setw` — a minimum width — would print every digit instead, a
regime the theorems exclude explicitly). -/
def padDigits : ℕ → ℕ → List ℕ
  | 0, _ => []
  | l + 1, n => n / 10 ^ l :: padDigits l (n % 10 ^ l)

/-- The zero-padded 8-digit index as a string. -/
def pad8 (n : ℕ) : String :=
  String.mk ((padDigits 8 n).map Nat.digitChar)

/-- The file name built at data_visualizer.cpp:135 (the constant directory
prefix `path` aside): `<8-digit zero-padded numFrames>_frame.bmp`. -/
def frameFileName (numFrames : ℕ) : String :=
  pad8 numFrames ++ "_frame.bmp"

example : frameFileName 0 = "00000000_frame.bmp" := by decide
example : frameFileName 123 = "00000123_frame.bmp" := by decide

/-- One `process` call's effect on the recording state
(data_visualizer.cpp:131-135, 154): when `saveToDisk` holds, a file named
from the current `numFrames` is written; in either case `numFrames` is then
incremented once.  Returns (file written this call, new counter). -/
def processRecordStep (saveToDisk : Bool) (numFrames : ℕ) :
    Option String × ℕ :=
  (if saveToDisk then some (frameFileName numFrames) else none, numFrames + 1)

/-- Running `process` once per element of `flags` (each element the
`saveToDisk` value in effect for that call) starting from counter `n`:
returns the recorded file names in order and the final counter.
`DataVisualizer::init` (line 77) starts the counter at `n = 0`. -/
def processCalls : List Bool → ℕ → List String × ℕ
  | [], n => ([], n)
  | b :: bs, n =>
    let (file, n') := processRecordStep b n
    let (files, nEnd) := processCalls bs n'
    ((file.toList ++ files), nEnd)

example : processCalls [true, false, true] 0 =
    (["00000000_frame.bmp", "00000002_frame.bmp"], 3) := by decide

/-! ## The producer loop (RealsenseGrabber::run, lines 261-324)

Each `AcquireFrame` cycle is embedded as one `AcquireResult`: the returned
status plus what the SDK would hand back for that cycle (`QuerySample`
possibly null; per-image null checks; `AcquireAccess` statuses).  The
below-threshold comparisons `status < PXC_STATUS_NO_ERROR` are against
`PXC_STATUS_NO_ERROR = 0`, statuses being signed. -/

/-- One sensor image of a sample: its reported size, the status its
`AcquireAccess` call would return, and the pixel buffer (`planes[0]`,
abstracted as bytes by flat index). -/
structure RsImage where
  height : ℕ
  width : ℕ
  accessStatus : ℤ
  planes0 : ℕ → ℕ

/-- A `PXCCapture::Sample`: color and depth images, each possibly null. -/
structure RsSample where
  color : Option RsImage
  depth : Option RsImage

/-- One `AcquireFrame` cycle: the acquire status and the sample
`QuerySample` would return (possibly null). -/
structure AcquireResult where
  status : ℤ
  sample : Option RsSample

/-- A distributed frame, wrapping the two `cv::Mat`s built from the sample's
buffers (data_visualizer.cpp:303,312,317). -/
structure RsFrame where
  color : Image Pix
  depth : Image ℕ

/-- `cv::Mat(colorInfo.height, colorInfo.width, CV_8UC3, colorData.planes[0])`:
3 interleaved BGR bytes per pixel, row-major. -/
def colorMatOf (img : RsImage) : Image Pix :=
  ⟨img.height, img.width, fun i j =>
    ⟨img.planes0 (3 * (i * img.width + j)),
     img.planes0 (3 * (i * img.width + j) + 1),
     img.planes0 (3 * (i * img.width + j) + 2)⟩⟩

/-- `cv::Mat(depthInfo.height, depthInfo.width, CV_16UC1, depthData.planes[0])`:
one little-endian 16-bit distance per pixel, row-major. -/
def depthMatOf (img : RsImage) : Image ℕ :=
  ⟨img.height, img.width, fun i j =>
    img.planes0 (2 * (i * img.width + j)) +
      256 * img.planes0 (2 * (i * img.width + j) + 1)⟩

/-- The per-sample body of the producer loop (data_visualizer.cpp:270-320),
given an acquire cycle whose status already passed the loop condition:
`none` means the sample was skipped (`continue` after a log message), `some`
is the frame handed to `distribute`.  The checks appear in source order:
null sample, null color, null depth, failed color access, failed depth
access. -/
def grabberStep (a : AcquireResult) : Option RsFrame :=
  match a.sample with
  | none => none
  | some s =>
    match s.color with
    | none => none
    | some color =>
      match s.depth with
      | none => none
      | some depth =>
        if color.accessStatus < 0 then none
        else if depth.accessStatus < 0 then none
        else some ⟨colorMatOf color, depthMatOf depth⟩

/-- The producer loop `RealsenseGrabber::run` (data_visualizer.cpp:261-324)
over a sequence of acquire cycles: while
`AcquireFrame(true, 1000) >= PXC_STATUS_NO_ERROR`, run the per-sample body,
distributing the frames it produces; a below-threshold status ends the loop.
The returned list is the sequence of frames distributed, in order (each
registered queue receives exactly this sequence, one shared reference per
queue). -/
def grabberRun : List AcquireResult → List RsFrame
  | [] => []
  | a :: rest =>
    if a.status < 0 then []
    else
      match grabberStep a with
      | none => grabberRun rest
      | some f => f :: grabberRun rest

/-! ## Helper lemmas about the green boost -/

lemma depthColor_nonneg {d : ℕ} (h : d < 6000) : 0 ≤ depthColor d := by
  unfold depthColor
  rw [Int.le_floor]
  have hd : (d : ℚ) ≤ 6000 := by exact_mod_cast h.le
  push_cast
  rw [sub_nonneg, div_le_iff₀ (by norm_num : (0 : ℚ) < 6000)]
  nlinarith

lemma depthColor_anti {d1 d2 : ℕ} (h : d1 ≤ d2) :
    depthColor d2 ≤ depthColor d1 := by
  apply Int.floor_le_floor
  have hd : (d1 : ℚ) ≤ d2 := by exact_mod_cast h
  have hdiv : (d1 : ℚ) * 40 / 6000 ≤ (d2 : ℚ) * 40 / 6000 := by
    gcongr
  linarith

/-! ## Claim theorems about the fusion compositing step -/

/-- C2: in the fusion compositing step, a pixel whose aligned depth value `d`
satisfies `d ≤ 300` or `d ≥ 6000` (including the "unknown" value `d = 0`)
receives exactly the aligned color pixel, in all three channels. -/
theorem fusion_out_of_range_preserves_pixel (color : Image Pix)
    (depth : Image ℕ) (i j : ℕ)
    (h : depth.data i j ≤ 300 ∨ 6000 ≤ depth.data i j) :
    (fuseImage color depth).data i j = color.data i j := by
  show fusePixel (color.data i j) (depth.data i j) = color.data i j
  unfold fusePixel
  exact if_pos h

theorem fusion_out_of_range_preserves_pixel_witness :
    ((⟨1, 1, fun _ _ => 6000⟩ : Image ℕ).data 0 0 ≤ 300 ∨
      6000 ≤ (⟨1, 1, fun _ _ => 6000⟩ : Image ℕ).data 0 0) ∧
    (fuseImage (⟨1, 1, fun _ _ => ⟨10, 20, 30⟩⟩ : Image Pix)
        (⟨1, 1, fun _ _ => 6000⟩ : Image ℕ)).data 0 0 =
      (⟨1, 1, fun _ _ => ⟨10, 20, 30⟩⟩ : Image Pix).data 0 0 :=
  ⟨by decide,
   fusion_out_of_range_preserves_pixel _ _ 0 0 (by decide)⟩

/-- C10: the fusion step touches at most the green channel.  For every pixel
and every aligned depth value (in range or not), the fused red and blue
channels equal the aligned color pixel's, and the fused green channel is
never below the aligned color pixel's green channel (the color channel being
an 8-bit value, `g ≤ 255`). -/
theorem fusion_modifies_only_green (color : Image Pix) (depth : Image ℕ)
    (i j : ℕ) (hg : (color.data i j).g ≤ 255) :
    ((fuseImage color depth).data i j).r = (color.data i j).r ∧
    ((fuseImage color depth).data i j).b = (color.data i j).b ∧
    (color.data i j).g ≤ ((fuseImage color depth).data i j).g := by
  show (fusePixel (color.data i j) (depth.data i j)).r = _ ∧
    (fusePixel (color.data i j) (depth.data i j)).b = _ ∧
    _ ≤ (fusePixel (color.data i j) (depth.data i j)).g
  unfold fusePixel
  by_cases h : depth.data i j ≤ 300 ∨ 6000 ≤ depth.data i j
  · rw [if_pos h]
    exact ⟨rfl, rfl, le_refl _⟩
  · rw [if_neg h]
    refine ⟨rfl, rfl, ?_⟩
    have hk : 0 ≤ depthColor (depth.data i j) := depthColor_nonneg (by omega)
    dsimp only
    omega

theorem fusion_modifies_only_green_witness :
    ((⟨1, 1, fun _ _ => ⟨10, 20, 30⟩⟩ : Image Pix).data 0 0).g ≤ 255 ∧
    (((fuseImage (⟨1, 1, fun _ _ => ⟨10, 20, 30⟩⟩ : Image Pix)
        (⟨1, 1, fun _ _ => 1000⟩ : Image ℕ)).data 0 0).r =
      ((⟨1, 1, fun _ _ => ⟨10, 20, 30⟩⟩ : Image Pix).data 0 0).r ∧
    ((fuseImage (⟨1, 1, fun _ _ => ⟨10, 20, 30⟩⟩ : Image Pix)
        (⟨1, 1, fun _ _ => 1000⟩ : Image ℕ)).data 0 0).b =
      ((⟨1, 1, fun _ _ => ⟨10, 20, 30⟩⟩ : Image Pix).data 0 0).b ∧
    ((⟨1, 1, fun _ _ => ⟨10, 20, 30⟩⟩ : Image Pix).data 0 0).g ≤
      ((fuseImage (⟨1, 1, fun _ _ => ⟨10, 20, 30⟩⟩ : Image Pix)
        (⟨1, 1, fun _ _ => 1000⟩ : Image ℕ)).data 0 0).g) :=
  ⟨by decide, fusion_modifies_only_green _ _ 0 0 (by decide)⟩

/-- C9: over the in-range interval `300 < d < 6000`, with the original color
pixel held fixed, the fused green channel is monotonically non-increasing in
the aligned depth value `d`. -/
theorem fusion_green_antitone (c : Pix) (d1 d2 : ℕ)
    (h1 : 300 < d1) (h12 : d1 ≤ d2) (h2 : d2 < 6000) :
    (fusePixel c d2).g ≤ (fusePixel c d1).g := by
  unfold fusePixel
  rw [if_neg (by omega), if_neg (by omega)]
  have hmono := depthColor_anti h12
  have hk : 0 ≤ depthColor d2 := depthColor_nonneg h2
  dsimp only
  omega

theorem fusion_green_antitone_witness :
    300 < 1000 ∧ 1000 ≤ 2000 ∧ 2000 < 6000 ∧
    (fusePixel ⟨128, 128, 128⟩ 2000).g ≤ (fusePixel ⟨128, 128, 128⟩ 1000).g :=
  ⟨by norm_num, by norm_num, by norm_num,
   fusion_green_antitone ⟨128, 128, 128⟩ 1000 2000
     (by norm_num) (by norm_num) (by norm_num)⟩

/-- C1 (counterexample): the claim's green formula uses mathematical
rounding, but the code's `int(...)` cast truncates.  At the in-range depth
`d = 975` the exact boost `40 - 975*40/6000 = 33.5` (a value the `float`
computation also produces exactly), so the code adds `⌊33.5⌋ = 33` green
while the claim predicts `round 33.5 = 34`: on the gray pixel
`(128,128,128)` the code yields green `161`, the claim `162`. -/
theorem fusion_green_round_counterexample :
    300 < 975 ∧ 975 < 6000 ∧
    (fusePixel ⟨128, 128, 128⟩ 975).g ≠
      min (128 + (round ((40 : ℚ) - 975 * 40 / 6000)).toNat) 255 := by
  have hdc : depthColor 975 = 33 := by
    unfold depthColor
    norm_num
  have h1 : (fusePixel ⟨128, 128, 128⟩ 975).g = 161 := by
    unfold fusePixel
    rw [if_neg (by omega)]
    dsimp only
    rw [hdc]
    decide
  have h2 : round ((40 : ℚ) - 975 * 40 / 6000) = 34 := by
    rw [round_eq]
    norm_num
  refine ⟨by norm_num, by norm_num, ?_⟩
  rw [h1, h2]
  decide

/-- C1 (amended): for every pixel whose aligned depth value `d` satisfies
`300 < d < 6000`, the fused green channel equals
`min (original_green + ⌊40 - d*40/6000⌋, 255)` — the floor (equivalently,
C truncation of the positive value) of the exact boost, not its rounding. -/
theorem fusion_green_formula (color : Image Pix) (depth : Image ℕ) (i j : ℕ)
    (h1 : 300 < depth.data i j) (h2 : depth.data i j < 6000) :
    ((fuseImage color depth).data i j).g =
      min ((color.data i j).g +
        (⌊(40 : ℚ) - (depth.data i j : ℚ) * 40 / 6000⌋).toNat) 255 := by
  have hk : 0 ≤ depthColor (depth.data i j) := depthColor_nonneg h2
  show (fusePixel (color.data i j) (depth.data i j)).g = _
  unfold fusePixel
  rw [if_neg (by omega)]
  unfold depthColor at *
  dsimp only
  omega

theorem fusion_green_formula_witness :
    300 < (⟨1, 1, fun _ _ => 1000⟩ : Image ℕ).data 0 0 ∧
    (⟨1, 1, fun _ _ => 1000⟩ : Image ℕ).data 0 0 < 6000 ∧
    ((fuseImage (⟨1, 1, fun _ _ => ⟨128, 128, 128⟩⟩ : Image Pix)
        (⟨1, 1, fun _ _ => 1000⟩ : Image ℕ)).data 0 0).g =
      min (((⟨1, 1, fun _ _ => ⟨128, 128, 128⟩⟩ : Image Pix).data 0 0).g +
        (⌊(40 : ℚ) - (((⟨1, 1, fun _ _ => 1000⟩ : Image ℕ).data 0 0 : ℕ) : ℚ)
          * 40 / 6000⌋).toNat) 255 :=
  ⟨by decide, by decide,
   fusion_green_formula _ _ 0 0 (by decide) (by decide)⟩

/-- C6: the `resizeImg` helper returns its input unchanged exactly when the
source dimensions already equal the target dimensions, and otherwise returns
the nearest-neighbor resampling of the input to the target size. -/
theorem resizeImg_identity_iff {α : Type} (img : Image α) (w h : ℕ) :
    (resizeImg img w h = img ↔ img.cols = w ∧ img.rows = h) ∧
    (¬(img.cols = w ∧ img.rows = h) →
      resizeImg img w h = cvResizeNearest img w h) := by
  by_cases hc : img.cols = w ∧ img.rows = h
  · have hid : resizeImg img w h = img := by
      unfold resizeImg
      rw [if_neg]
      push_neg
      exact hc
    exact ⟨by simp [hid, hc], fun hn => absurd hc hn⟩
  · have hne : img.cols ≠ w ∨ img.rows ≠ h := by tauto
    have hr : resizeImg img w h = cvResizeNearest img w h := by
      unfold resizeImg
      rw [if_pos hne]
    refine ⟨⟨fun hEq => ?_, fun hcc => absurd hcc hc⟩, fun _ => hr⟩
    exfalso
    rcases hne with h1 | h1
    · have hcol : (resizeImg img w h).cols = w := by rw [hr]; rfl
      rw [hEq] at hcol
      exact h1 hcol
    · have hrow : (resizeImg img w h).rows = h := by rw [hr]; rfl
      rw [hEq] at hrow
      exact h1 hrow

theorem resizeImg_identity_iff_witness :
    ¬((⟨1, 2, fun _ j => j⟩ : Image ℕ).cols = 3 ∧
      (⟨1, 2, fun _ j => j⟩ : Image ℕ).rows = 1) ∧
    resizeImg (⟨1, 2, fun _ j => j⟩ : Image ℕ) 3 1 =
      cvResizeNearest (⟨1, 2, fun _ j => j⟩ : Image ℕ) 3 1 :=
  ⟨by decide,
   (resizeImg_identity_iff (⟨1, 2, fun _ j => j⟩ : Image ℕ) 3 1).2 (by decide)⟩

/-! ## Claim theorems about depth synthesis -/

lemma foldl_synthStep_eq {P : Type} (proj : P → Option (ℕ × ℕ × ℕ))
    (cloud : List P) (i j : ℕ) :
    cloud.foldl (synthStep proj) (fun _ _ => 0) i j =
      lastProjected proj cloud i j := by
  induction cloud using List.reverseRecOn with
  | nil => simp [lastProjected]
  | append_singleton xs x ih =>
    rw [List.foldl_append]
    unfold lastProjected
    rw [List.reverse_append, List.reverse_singleton, List.singleton_append,
      List.findSome?_cons]
    simp only [List.foldl_cons, List.foldl_nil]
    unfold lastProjected at ih
    cases hpx : proj x with
    | none =>
      unfold synthStep
      rw [hpx]
      exact ih
    | some t =>
      obtain ⟨i', j', d⟩ := t
      unfold synthStep
      rw [hpx]
      dsimp only
      by_cases hij : i = i' ∧ j = j'
      · rw [if_pos hij]
        unfold gridWrite
        rw [if_pos hij]
        rfl
      · rw [if_neg hij]
        unfold gridWrite
        rw [if_neg hij]
        exact ih

/-- C3: the grid synthesized from the point cloud when `frame->depth` is
empty sits at the depth stream's native resolution and its value at any
pixel `(i, j)` is exactly the quantized distance reported by the last cloud
point the projection primitive maps to `(i, j)` — so an out-of-frustum point
(projection `none`) contributes nothing, a valid projection writes exactly
the returned distance at the returned coordinate, the last write wins on
collision, and a pixel no point projects to stays at the initial zero
(final conjunct: if no point of the cloud projects at all, every pixel is
zero). -/
theorem synthesizeDepth_spec {P : Type} (proj : P → Option (ℕ × ℕ × ℕ))
    (rows cols : ℕ) (cloud : List P) (i j : ℕ) :
    (synthesizeDepth proj rows cols cloud).rows = rows ∧
    (synthesizeDepth proj rows cols cloud).cols = cols ∧
    (synthesizeDepth proj rows cols cloud).data i j =
      lastProjected proj cloud i j ∧
    ((∀ p ∈ cloud, proj p = none) →
      (synthesizeDepth proj rows cols cloud).data i j = 0) := by
  refine ⟨rfl, rfl, foldl_synthStep_eq proj cloud i j, fun hnone => ?_⟩
  rw [show (synthesizeDepth proj rows cols cloud).data i j =
      lastProjected proj cloud i j from foldl_synthStep_eq proj cloud i j]
  unfold lastProjected
  rw [List.findSome?_eq_none_iff.mpr]
  · rfl
  · intro p hp
    rw [hnone p (List.mem_reverse.mp hp)]

theorem synthesizeDepth_spec_witness :
    (synthesizeDepth (fun _ : ℕ => (none : Option (ℕ × ℕ × ℕ))) 4 5 [0]).data
      0 0 = 0 :=
  (synthesizeDepth_spec (fun _ : ℕ => (none : Option (ℕ × ℕ × ℕ)))
    4 5 [0] 0 0).2.2.2 (fun _ _ => rfl)

/-! ## Claim theorems about the recording branch -/

/-- The false-color rule as the spec words it: a pixel with depth 0 stays
black; any other depth is clamped into `[800, 2500]` and the color is the
linear interpolation between a "near" color and a "far" color proportional
to where the clamped depth falls in that range (weight
`t = (d - 800)/(2500 - 800)` on the far color), per channel, rounded to the
nearest 8-bit value.  The spec's wording fixes no tie rule; the rounding
used is `cvRoundQ` (ties to even), the one the code's `saturate_cast`
applies. -/
def falseColorSpec (near far : Pix) (d0 : ℕ) : Pix :=
  if d0 = 0 then ⟨0, 0, 0⟩
  else
    let d := min (max d0 800) 2500
    let t : ℚ := ((d : ℚ) - 800) / (2500 - 800)
    ⟨(cvRoundQ ((1 - t) * near.b + t * far.b)).toNat,
     (cvRoundQ ((1 - t) * near.g + t * far.g)).toNat,
     (cvRoundQ ((1 - t) * near.r + t * far.r)).toNat⟩

/-- C5: when recording is enabled the recorded image is computed per pixel
from the aligned depth grid, at that grid's resolution, by exactly the
spec's rule: depth 0 stays black, every other depth is clamped into
`[800, 2500]` mm and the pixel is the linear interpolation between the
"near" color (pure red, BGR `(0,0,255)`) and the "far" color (pure blue,
BGR `(255,0,0)`) proportional to where the clamped depth falls in the
range. -/
theorem recorded_false_color_spec (depth : Image ℕ) (i j : ℕ) :
    (depthPretty depth).rows = depth.rows ∧
    (depthPretty depth).cols = depth.cols ∧
    (depthPretty depth).data i j =
      falseColorSpec ⟨0, 0, 255⟩ ⟨255, 0, 0⟩ (depth.data i j) := by
  refine ⟨rfl, rfl, ?_⟩
  show falseColor (depth.data i j) = _
  set d0 := depth.data i j with hd0
  unfold falseColor falseColorSpec
  by_cases h : d0 = 0
  · rw [if_pos h, if_pos h]
  · rw [if_neg h, if_neg h]
    dsimp only
    congr 1
    · congr 1
      congr 1
      push_cast
      norm_num
      ring
    · norm_num [cvRoundQ]
    · congr 1
      congr 1
      push_cast
      norm_num
      ring

lemma depthPrettyResized_dims (depth : Image ℕ) :
    (depthPrettyResized depth).rows = depth.rows ∧
    (depthPrettyResized depth).cols = depth.cols := by
  unfold depthPrettyResized cvResizeScale cvResizeNearest depthPretty
  constructor
  · show (round ((1 : ℚ) * (depth.rows : ℚ))).toNat = depth.rows
    rw [one_mul, round_natCast, Int.toNat_natCast]
  · show (round ((1 : ℚ) * (depth.cols : ℚ))).toNat = depth.cols
    rw [one_mul, round_natCast, Int.toNat_natCast]

/-- C4 (counterexample): the image written by the recording branch is not
upsampled.  The final `cv::resize` is called with scale factors `1, 1`, so
on a concrete 2×3 aligned depth grid the written image still has 2 rows and
3 columns — its resolution is not strictly increased over the aligned depth
grid's. -/
theorem recorded_resize_counterexample :
    ¬((⟨2, 3, fun _ _ => 1000⟩ : Image ℕ).rows <
        (depthPrettyResized ⟨2, 3, fun _ _ => 1000⟩).rows ∧
      (⟨2, 3, fun _ _ => 1000⟩ : Image ℕ).cols <
        (depthPrettyResized ⟨2, 3, fun _ _ => 1000⟩).cols) := by
  have h := depthPrettyResized_dims ⟨2, 3, fun _ _ => 1000⟩
  intro hc
  rw [h.1] at hc
  exact absurd hc.1 (lt_irrefl _)

/-- C4 (amended): when recording is enabled, the false-color image is passed
through the final `cv::resize` with scale factors `1, 1` before being
written, which leaves its resolution equal to the aligned depth grid's
resolution and each in-bounds pixel unchanged (the resize is an identity,
not an upsample). -/
theorem recorded_resize_is_identity (depth : Image ℕ) (i j : ℕ)
    (hi : i < depth.rows) (hj : j < depth.cols) :
    (depthPrettyResized depth).rows = depth.rows ∧
    (depthPrettyResized depth).cols = depth.cols ∧
    (depthPrettyResized depth).data i j = (depthPretty depth).data i j := by
  refine ⟨(depthPrettyResized_dims depth).1, (depthPrettyResized_dims depth).2,
    ?_⟩
  unfold depthPrettyResized cvResizeScale cvResizeNearest depthPretty
  dsimp only
  have hrows : (round ((1 : ℚ) * ((depth.rows : ℕ) : ℚ))).toNat = depth.rows := by
    rw [one_mul, round_natCast, Int.toNat_natCast]
  have hcols : (round ((1 : ℚ) * ((depth.cols : ℕ) : ℚ))).toNat = depth.cols := by
    rw [one_mul, round_natCast, Int.toNat_natCast]
  rw [hrows, hcols]
  have hii : min (i * depth.rows / depth.rows) (depth.rows - 1) = i := by
    have h1 : i * depth.rows / depth.rows = i :=
      Nat.mul_div_cancel i (by omega)
    omega
  have hjj : min (j * depth.cols / depth.cols) (depth.cols - 1) = j := by
    have h1 : j * depth.cols / depth.cols = j :=
      Nat.mul_div_cancel j (by omega)
    omega
  rw [hii, hjj]

theorem recorded_resize_is_identity_witness :
    0 < (⟨2, 3, fun _ _ => 1000⟩ : Image ℕ).rows ∧
    1 < (⟨2, 3, fun _ _ => 1000⟩ : Image ℕ).cols ∧
    ((depthPrettyResized ⟨2, 3, fun _ _ => 1000⟩).rows = 2 ∧
     (depthPrettyResized ⟨2, 3, fun _ _ => 1000⟩).cols = 3 ∧
     (depthPrettyResized ⟨2, 3, fun _ _ => 1000⟩).data 0 1 =
       (depthPretty ⟨2, 3, fun _ _ => 1000⟩).data 0 1) :=
  ⟨by decide, by decide,
   recorded_resize_is_identity ⟨2, 3, fun _ _ => 1000⟩ 0 1
     (by decide) (by decide)⟩

/-! ## Claim theorems about the frame counter and recorded file names -/

lemma padDigits_length (l n : ℕ) : (padDigits l n).length = l := by
  induction l generalizing n with
  | zero => rfl
  | succ l ih => simp [padDigits, ih]

lemma padDigits_digits_lt {l n : ℕ} (h : n < 10 ^ l) :
    ∀ a ∈ padDigits l n, a < 10 := by
  induction l generalizing n with
  | zero =>
    intro a ha
    simp [padDigits] at ha
  | succ l ih =>
    intro a ha
    simp only [padDigits, List.mem_cons] at ha
    rcases ha with rfl | ha
    · apply Nat.div_lt_of_lt_mul
      rw [pow_succ] at h
      exact h
    · exact ih (Nat.mod_lt _ (pow_pos (by norm_num) l)) a ha

lemma padDigits_lex {l j k : ℕ} (hk : k < 10 ^ l) (hjk : j < k) :
    List.Lex (· < ·) (padDigits l j) (padDigits l k) := by
  induction l generalizing j k with
  | zero =>
    have hk0 : k = 0 := by simpa using hk
    omega
  | succ l ih =>
    simp only [padDigits]
    have hq : j / 10 ^ l ≤ k / 10 ^ l := Nat.div_le_div_right hjk.le
    rcases lt_or_eq_of_le hq with hlt | heq
    · exact List.Lex.rel hlt
    · rw [heq]
      have e1 : 10 ^ l * (j / 10 ^ l) = 10 ^ l * (k / 10 ^ l) := by rw [heq]
      have hmod : j % 10 ^ l < k % 10 ^ l := by
        have hj2 := Nat.div_add_mod j (10 ^ l)
        have hk2 := Nat.div_add_mod k (10 ^ l)
        omega
      have hkm : k % 10 ^ l < 10 ^ l := Nat.mod_lt _ (pow_pos (by norm_num) l)
      exact List.Lex.cons (ih hkm hmod)

lemma digitChar_lt_of_lt :
    ∀ a < 10, ∀ b < 10, a < b → Nat.digitChar a < Nat.digitChar b := by
  decide

lemma lex_map_digitChar {l1 l2 : List ℕ} (h : List.Lex (· < ·) l1 l2)
    (h1 : ∀ a ∈ l1, a < 10) (h2 : ∀ a ∈ l2, a < 10) :
    List.Lex (· < ·) (l1.map Nat.digitChar) (l2.map Nat.digitChar) := by
  induction h with
  | nil => exact List.Lex.nil
  | @rel a l1' b l2' hab =>
    exact List.Lex.rel
      (digitChar_lt_of_lt a (h1 a (by simp)) b (h2 b (by simp)) hab)
  | @cons a l1' l2' h' ih =>
    exact List.Lex.cons
      (ih (fun x hx => h1 x (by simp [hx])) (fun x hx => h2 x (by simp [hx])))

lemma lex_append_of_length_eq {α : Type} {r : α → α → Prop} {l1 l2 : List α}
    (h : List.Lex r l1 l2) (hlen : l1.length = l2.length) (s t : List α) :
    List.Lex r (l1 ++ s) (l2 ++ t) := by
  induction h with
  | nil => simp at hlen
  | rel hab => exact List.Lex.rel hab
  | cons h' ih => exact List.Lex.cons (ih (by simpa using hlen))

lemma frameFileName_lt {j k : ℕ} (hk : k < 10 ^ 8) (hjk : j < k) :
    frameFileName j < frameFileName k := by
  have hj : j < 10 ^ 8 := lt_trans hjk hk
  rw [frameFileName, frameFileName, String.lt_iff_toList_lt]
  have htl : ∀ n, (pad8 n ++ "_frame.bmp").toList =
      (padDigits 8 n).map Nat.digitChar ++ "_frame.bmp".toList :=
    fun n => rfl
  rw [htl, htl]
  show List.Lex (· < ·) _ _
  apply lex_append_of_length_eq
  · exact lex_map_digitChar (padDigits_lex hk hjk)
      (padDigits_digits_lt hj) (padDigits_digits_lt hk)
  · simp [padDigits_length]

lemma processCalls_counter (flags : List Bool) (n : ℕ) :
    (processCalls flags n).2 = n + flags.length := by
  induction flags generalizing n with
  | nil => simp [processCalls]
  | cons b bs ih =>
    simp only [processCalls, processRecordStep]
    rw [ih]
    simp [List.length_cons]
    omega

lemma processCalls_files_all_on (m n : ℕ) :
    (processCalls (List.replicate m true) n).1 =
      (List.range m).map (fun i => frameFileName (n + i)) := by
  induction m generalizing n with
  | zero => simp [processCalls]
  | succ m ih =>
    rw [List.replicate_succ]
    simp only [processCalls, processRecordStep, if_pos]
    rw [ih]
    rw [List.range_succ_eq_map]
    simp only [List.map_cons, List.map_map, Option.toList_some,
      List.singleton_append, Nat.add_zero]
    congr 1
    apply List.map_congr_left
    intro i _
    simp only [Function.comp_apply]
    congr 1
    omega

/-- C7: the frame counter starts at 0 (`init`) and `process` increments it
exactly once per call whatever `saveToDisk` is, so after any sequence of
calls the counter equals the number of calls; with recording enabled
throughout, the recorded file names are `frameFileName 0, 1, …` in call
order, the first being `00000000_frame.bmp`; and on indices below `10^8`
the names are 8-digit zero-padded and strictly increasing (in string
order). -/
theorem frame_counter_and_file_names (flags : List Bool) (m j k : ℕ)
    (hjk : j < k) (hk : k < 10 ^ 8) :
    (processCalls flags 0).2 = flags.length ∧
    (processCalls (List.replicate m true) 0).1 =
      (List.range m).map frameFileName ∧
    frameFileName 0 = "00000000_frame.bmp" ∧
    (pad8 k).length = 8 ∧
    frameFileName j < frameFileName k := by
  refine ⟨by simpa using processCalls_counter flags 0, ?_, by decide, ?_,
    frameFileName_lt hk hjk⟩
  · rw [processCalls_files_all_on m 0]
    apply List.map_congr_left
    intro i _
    rw [Nat.zero_add]
  · show ((padDigits 8 k).map Nat.digitChar).length = 8
    simp [padDigits_length]

theorem frame_counter_and_file_names_witness :
    0 < 1 ∧ 1 < 10 ^ 8 ∧
    ((processCalls [true, false] 0).2 = [true, false].length ∧
     (processCalls (List.replicate 2 true) 0).1 =
       (List.range 2).map frameFileName ∧
     frameFileName 0 = "00000000_frame.bmp" ∧
     (pad8 1).length = 8 ∧
     frameFileName 0 < frameFileName 1) :=
  ⟨by norm_num, by norm_num,
   frame_counter_and_file_names [true, false] 2 0 1 (by norm_num) (by norm_num)⟩

/-! ## Claim theorem about the producer loop -/

lemma grabberRun_eq_filterMap (input : List AcquireResult) :
    grabberRun input =
      (input.takeWhile fun x => decide (0 ≤ x.status)).filterMap grabberStep := by
  induction input with
  | nil => rfl
  | cons x rest ih =>
    by_cases hx : x.status < 0
    · rw [grabberRun, if_pos hx, List.takeWhile_cons]
      have hdec : decide (0 ≤ x.status) = false := by
        simp only [decide_eq_false_iff_not]
        omega
      rw [hdec]
      rfl
    · rw [grabberRun, if_neg hx, List.takeWhile_cons]
      have hdec : decide (0 ≤ x.status) = true := by
        simp only [decide_eq_true_eq]
        omega
      rw [hdec]
      show (match grabberStep x with
        | none => grabberRun rest
        | some f => f :: grabberRun rest) =
        List.filterMap grabberStep (x :: List.takeWhile _ rest)
      rw [List.filterMap_cons]
      cases hstep : grabberStep x with
      | none => exact ih
      | some f => rw [ih]

lemma grabberStep_eq_none_iff (a : AcquireResult) :
    grabberStep a = none ↔
      a.sample = none ∨
      (∃ s, a.sample = some s ∧ (s.color = none ∨ s.depth = none)) ∨
      (∃ s c d, a.sample = some s ∧ s.color = some c ∧ s.depth = some d ∧
        (c.accessStatus < 0 ∨ d.accessStatus < 0)) := by
  unfold grabberStep
  cases hs : a.sample with
  | none => simp
  | some s =>
    cases hc : s.color with
    | none => simp [hc]
    | some c =>
      cases hd : s.depth with
      | none => simp [hc, hd]
      | some d =>
        by_cases hca : c.accessStatus < 0
        · simp only [if_pos hca]
          simp [hc, hd, hca]
        · by_cases hda : d.accessStatus < 0
          · simp only [if_neg hca, if_pos hda]
            simp [hc, hd, hda]
          · simp only [if_neg hca, if_neg hda]
            simp [hc, hd, hca, hda]


/-- C8: the producer loop distributes exactly the frames built from the
acquire cycles preceding the first below-threshold acquire status (which
terminates the loop), each surviving cycle contributing one frame unless it
is skipped; and a cycle is skipped — contributing no frame at all — exactly
when its sample object is null, its color or depth buffer is null, or a
buffer access fails. -/
theorem producer_loop_spec (input : List AcquireResult) (a : AcquireResult) :
    grabberRun input =
      (input.takeWhile fun x => decide (0 ≤ x.status)).filterMap grabberStep ∧
    (grabberStep a = none ↔
      a.sample = none ∨
      (∃ s, a.sample = some s ∧ (s.color = none ∨ s.depth = none)) ∨
      (∃ s c d, a.sample = some s ∧ s.color = some c ∧ s.depth = some d ∧
        (c.accessStatus < 0 ∨ d.accessStatus < 0))) :=
  ⟨grabberRun_eq_filterMap input, grabberStep_eq_none_iff a⟩
